import Mathlib

set_option autoImplicit false

/-!
Verification of the rocket-request_id plugin (src/src/lib.rs).

The crate keeps a process-wide `Mutex<HashMap<usize, u64>>` named
`REQUEST_IDS`.  A fairing inserts a random `u64` keyed by the request's
address (`usize`) when a request starts (`on_request`) and removes the key
when the response goes out (`on_response`).  The `FromRequest`
implementation for `RequestID` (`from_request`) looks the key up, returning
`Outcome::Success(RequestID)` on a hit and
`Outcome::Failure((Status::InternalServerError, ()))` on a miss.

The embedding below models the hash map as an association list with unique
keys (insert erases any previous binding first, which is exactly the
observable semantics of `HashMap::insert`), `usize` handles and `u64`
identifiers as natural numbers (identifiers reduced mod 2^64 at the point
where `thread_rng().gen::<u64>()` produces them), the mutex as a state
record with a poisoned flag (`lock().unwrap()` panics exactly when the
flag is set), and request lifecycles as traces of start / resolve / finish
events.
-/

namespace RocketRequestId

/-- Modulus of the 64-bit identifier space (`u64`). -/
def U64_MOD : Nat := 2 ^ 64

/-- The shared map `REQUEST_IDS : HashMap<usize, u64>`, modelled as an
association list from handles (request addresses, `usize`) to identifiers
(`u64`). -/
structure Registry where
  entries : List (Nat × Nat)
  deriving DecidableEq, Repr

/-- The empty registry (`HashMap::new()`). -/
def Registry.empty : Registry := ⟨[]⟩

/-- Lookup in the underlying entry list: first binding of the key wins. -/
def lookupEntries : List (Nat × Nat) → Nat → Option Nat
  | [], _ => none
  | (k, v) :: rest, h => if k = h then some v else lookupEntries rest h

/-- `HashMap::get`: the identifier stored for handle `h`, if any. -/
def Registry.get (m : Registry) (h : Nat) : Option Nat :=
  lookupEntries m.entries h

/-- Removal from the underlying entry list: drops every binding of the
key. -/
def removeEntries : List (Nat × Nat) → Nat → List (Nat × Nat)
  | [], _ => []
  | (k, v) :: rest, h =>
    if k = h then removeEntries rest h else (k, v) :: removeEntries rest h

/-- Number of bindings of a key in the underlying entry list. -/
def countKeyEntries : List (Nat × Nat) → Nat → Nat
  | [], _ => 0
  | (k, _) :: rest, h => (if k = h then 1 else 0) + countKeyEntries rest h

/-- `HashMap::insert`: binds `h` to `v`, overwriting any previous binding
for `h` (the old binding is erased so keys stay unique). -/
def Registry.insert (m : Registry) (h v : Nat) : Registry :=
  ⟨(h, v) :: removeEntries m.entries h⟩

/-- `HashMap::remove`: drops any binding for `h`; a no-op if `h` is absent. -/
def Registry.remove (m : Registry) (h : Nat) : Registry :=
  ⟨removeEntries m.entries h⟩

/-- `HashMap::len`: number of entries. -/
def Registry.size (m : Registry) : Nat :=
  m.entries.length

/-- Number of entries whose key is `h` (1 or 0 in any reachable state). -/
def Registry.countKey (m : Registry) (h : Nat) : Nat :=
  countKeyEntries m.entries h

/-- Rocket's `http::Status`, reduced to its numeric code. -/
structure Status where
  code : Nat
  deriving DecidableEq, Repr

/-- `Status::InternalServerError` (HTTP 500). -/
def Status.internalServerError : Status := ⟨500⟩

/-- Rocket's `request::Outcome` (`Success` / `Failure` / `Forward`). -/
inductive Outcome (S F : Type) where
  | success (val : S)
  | failure (err : F)
  | forward
  deriving DecidableEq, Repr

/-- The `RequestID` newtype around the `u64` identifier. -/
structure RequestID where
  id : Nat
  deriving DecidableEq, Repr

/-- The derived `PartialEq` for `RequestID`: field-wise comparison. -/
def RequestID.beq (a b : RequestID) : Bool :=
  a.id == b.id

/-- The conversion `impl From<RequestID> for u64`. -/
def u64From (r : RequestID) : Nat :=
  r.id

/-- Outcome type of `RequestID::from_request`: error type is
`(Status, ())`. -/
abbrev ReqOutcome := Outcome RequestID (Status × Unit)

/-- `RequestID::from_request` at the map level: look the handle up in the
registry; on a hit return `Success` with the stored identifier, on a miss
return `Failure((Status::InternalServerError, ()))`. -/
def from_request (m : Registry) (h : Nat) : ReqOutcome :=
  match m.get h with
  | some id => Outcome.success ⟨id⟩
  | none => Outcome.failure (Status.internalServerError, ())

/-- `RequestIDFairing::on_request` at the map level: insert a freshly
generated random identifier for the handle.  The generator draw `gen` is an
explicit input; `thread_rng().gen::<u64>()` makes it a 64-bit value. -/
def on_request (m : Registry) (h gen : Nat) : Registry :=
  m.insert h (gen % U64_MOD)

/-- `RequestIDFairing::on_response` at the map level: remove the handle. -/
def on_response (m : Registry) (h : Nat) : Registry :=
  m.remove h

/-- Result of `Mutex::lock`: `Ok(guard)` or `Err(PoisonError(guard))`. -/
inductive LockResult (A : Type) where
  | ok (a : A)
  | poisonErr (a : A)
  deriving DecidableEq, Repr

/-- A computation that either panics or produces a value. -/
inductive PanicOr (A : Type) where
  | panic
  | ok (a : A)
  deriving DecidableEq, Repr

/-- The `Mutex<HashMap<usize, u64>>` cell: its data plus the poisoned
flag. -/
structure Mutex where
  poisoned : Bool
  data : Registry
  deriving DecidableEq, Repr

/-- `Mutex::lock`: errors exactly when the mutex is poisoned. -/
def Mutex.lock (mx : Mutex) : LockResult Registry :=
  if mx.poisoned then LockResult.poisonErr mx.data else LockResult.ok mx.data

/-- `Result::unwrap` on a lock result: panics on a poison error. -/
def LockResult.unwrap {A : Type} : LockResult A → PanicOr A
  | LockResult.ok a => PanicOr.ok a
  | LockResult.poisonErr _ => PanicOr.panic

/-- `on_request` through the mutex:
`REQUEST_IDS.lock().unwrap().insert(addr, thread_rng().gen())`. -/
def on_request_locked (mx : Mutex) (h gen : Nat) : PanicOr Mutex :=
  match mx.lock.unwrap with
  | PanicOr.panic => PanicOr.panic
  | PanicOr.ok m => PanicOr.ok { mx with data := m.insert h (gen % U64_MOD) }

/-- `on_response` through the mutex:
`REQUEST_IDS.lock().unwrap().remove(&addr)`. -/
def on_response_locked (mx : Mutex) (h : Nat) : PanicOr Mutex :=
  match mx.lock.unwrap with
  | PanicOr.panic => PanicOr.panic
  | PanicOr.ok m => PanicOr.ok { mx with data := m.remove h }

/-- `from_request` through the mutex:
`REQUEST_IDS.lock().unwrap().get(&addr)` then match.  The guard is dropped
unchanged (`get` takes `&self`), so the mutex data after the call is the
data the lock yielded. -/
def from_request_locked (mx : Mutex) (h : Nat) : PanicOr (ReqOutcome × Mutex) :=
  match mx.lock.unwrap with
  | PanicOr.panic => PanicOr.panic
  | PanicOr.ok m =>
    match m.get h with
    | some id => PanicOr.ok (Outcome.success ⟨id⟩, { mx with data := m })
    | none =>
      PanicOr.ok (Outcome.failure (Status.internalServerError, ()), { mx with data := m })

/-- One registry-touching event in the life of the server: a request
starting (fairing `on_request` with its generator draw), a guard resolving
(`from_request`), or a request finishing (fairing `on_response`). -/
inductive Event where
  | start (h gen : Nat)
  | resolve (h : Nat)
  | finish (h : Nat)
  deriving DecidableEq, Repr

/-- Effect of one event on the registry.  A `resolve` reads through
`HashMap::get`, which takes the map by shared reference. -/
def stepReg (m : Registry) : Event → Registry
  | Event.start h g => on_request m h g
  | Event.resolve _ => m
  | Event.finish h => on_response m h

/-- Registry state after a trace of events. -/
def applyTrace (m : Registry) (tr : List Event) : Registry :=
  tr.foldl stepReg m

/-- Whether an event is a resolve (a pure lookup). -/
def Event.isResolve : Event → Bool
  | Event.resolve _ => true
  | _ => false

/-- A full request lifecycle on one handle: start hook, one resolve by the
handler, end hook.  Returns the handler's outcome and the final registry. -/
def runRequest (m : Registry) (h gen : Nat) : ReqOutcome × Registry :=
  let m1 := on_request m h gen
  (from_request m1 h, on_response m1 h)

/-- Start hooks for a batch of in-flight requests, each with its own
handle and generator draw. -/
def startAll (m : Registry) (reqs : List (Nat × Nat)) : Registry :=
  reqs.foldl (fun acc p => on_request acc p.1 p.2) m

/-! ### Basic lemmas about the registry operations -/

theorem lookup_removeEntries_self (l : List (Nat × Nat)) (h : Nat) :
    lookupEntries (removeEntries l h) h = none := by
  induction l with
  | nil => rfl
  | cons p rest ih =>
    obtain ⟨k2, v⟩ := p
    by_cases hkh : k2 = h
    · simp [removeEntries, hkh, ih]
    · simp [removeEntries, lookupEntries, hkh, ih]

theorem lookup_removeEntries_ne (l : List (Nat × Nat)) (h k : Nat) (hk : k ≠ h) :
    lookupEntries (removeEntries l h) k = lookupEntries l k := by
  induction l with
  | nil => rfl
  | cons p rest ih =>
    obtain ⟨k2, v⟩ := p
    by_cases hkh : k2 = h
    · have hh : ¬h = k := by omega
      simp [removeEntries, lookupEntries, hkh, hh, ih]
    · simp [removeEntries, lookupEntries, hkh, ih]

theorem removeEntries_of_lookup_none (l : List (Nat × Nat)) (h : Nat)
    (hn : lookupEntries l h = none) :
    removeEntries l h = l := by
  induction l with
  | nil => rfl
  | cons p rest ih =>
    obtain ⟨k2, v⟩ := p
    by_cases hkh : k2 = h
    · simp [lookupEntries, hkh] at hn
    · simp only [lookupEntries, hkh, if_false] at hn
      simp [removeEntries, hkh, ih hn]

theorem countKey_removeEntries_self (l : List (Nat × Nat)) (h : Nat) :
    countKeyEntries (removeEntries l h) h = 0 := by
  induction l with
  | nil => rfl
  | cons p rest ih =>
    obtain ⟨k2, v⟩ := p
    by_cases hkh : k2 = h
    · simp [removeEntries, hkh, ih]
    · simp [removeEntries, countKeyEntries, hkh, ih]

theorem get_insert_self (m : Registry) (h v : Nat) :
    (m.insert h v).get h = some v := by
  simp [Registry.get, Registry.insert, lookupEntries]

theorem get_insert_ne (m : Registry) (h v k : Nat) (hk : k ≠ h) :
    (m.insert h v).get k = m.get k := by
  have hh : ¬h = k := by omega
  simp only [Registry.get, Registry.insert, lookupEntries, hh, if_false]
  exact lookup_removeEntries_ne m.entries h k hk

theorem get_remove_self (m : Registry) (h : Nat) :
    (m.remove h).get h = none :=
  lookup_removeEntries_self m.entries h

theorem get_remove_ne (m : Registry) (h k : Nat) (hk : k ≠ h) :
    (m.remove h).get k = m.get k :=
  lookup_removeEntries_ne m.entries h k hk

theorem remove_of_get_none (m : Registry) (h : Nat) (hn : m.get h = none) :
    m.remove h = m := by
  cases m with
  | mk l =>
    simp only [Registry.remove, Registry.mk.injEq]
    exact removeEntries_of_lookup_none l h hn

theorem remove_insert_self (m : Registry) (h v : Nat) :
    (m.insert h v).remove h = m.remove h := by
  cases m with
  | mk l =>
    simp only [Registry.insert, Registry.remove, Registry.mk.injEq,
      removeEntries, if_pos rfl]
    exact removeEntries_of_lookup_none _ h (lookup_removeEntries_self l h)

theorem remove_idem (m : Registry) (h : Nat) :
    (m.remove h).remove h = m.remove h :=
  remove_of_get_none (m.remove h) h (get_remove_self m h)

theorem size_insert_of_get_none (m : Registry) (h v : Nat)
    (hn : m.get h = none) :
    (m.insert h v).size = m.size + 1 := by
  cases m with
  | mk l =>
    simp only [Registry.insert, Registry.size, List.length_cons,
      removeEntries_of_lookup_none l h hn]

theorem countKey_insert_self (m : Registry) (h v : Nat) :
    (m.insert h v).countKey h = 1 := by
  cases m with
  | mk l =>
    simp [Registry.insert, Registry.countKey, countKeyEntries,
      countKey_removeEntries_self l h]

/-! ### Trace lemmas -/

theorem applyTrace_cons (m : Registry) (e : Event) (tr : List Event) :
    applyTrace m (e :: tr) = applyTrace (stepReg m e) tr := rfl

theorem applyTrace_resolves (tr : List Event) (m : Registry)
    (hres : ∀ e ∈ tr, e.isResolve = true) :
    applyTrace m tr = m := by
  induction tr generalizing m with
  | nil => rfl
  | cons e rest ih =>
    cases e with
    | start h g =>
      have := hres (Event.start h g) (List.mem_cons_self _ _)
      simp [Event.isResolve] at this
    | resolve h =>
      exact ih m (fun e he => hres e (List.mem_cons_of_mem _ he))
    | finish h =>
      have := hres (Event.finish h) (List.mem_cons_self _ _)
      simp [Event.isResolve] at this

theorem applyTrace_drop_resolves (tr : List Event) (m : Registry) :
    applyTrace m (tr.filter (fun e => !e.isResolve)) = applyTrace m tr := by
  induction tr generalizing m with
  | nil => rfl
  | cons e rest ih =>
    cases e with
    | start h g =>
      have hf : (Event.start h g :: rest).filter (fun e => !e.isResolve)
          = Event.start h g :: rest.filter (fun e => !e.isResolve) := by
        simp [Event.isResolve]
      rw [hf, applyTrace_cons, applyTrace_cons, ih]
    | resolve h =>
      have hf : (Event.resolve h :: rest).filter (fun e => !e.isResolve)
          = rest.filter (fun e => !e.isResolve) := by
        simp [Event.isResolve]
      rw [hf, ih]
      rfl
    | finish h =>
      have hf : (Event.finish h :: rest).filter (fun e => !e.isResolve)
          = Event.finish h :: rest.filter (fun e => !e.isResolve) := by
        simp [Event.isResolve]
      rw [hf, applyTrace_cons, applyTrace_cons, ih]

/-! ### Lemmas about batches of concurrently started requests -/

theorem startAll_cons (m : Registry) (h g : Nat) (reqs : List (Nat × Nat)) :
    startAll m ((h, g) :: reqs) = startAll (on_request m h g) reqs := rfl

theorem startAll_get_not_mem (reqs : List (Nat × Nat)) (m : Registry) (h : Nat)
    (hnm : h ∉ reqs.map Prod.fst) :
    (startAll m reqs).get h = m.get h := by
  induction reqs generalizing m with
  | nil => rfl
  | cons p rest ih =>
    obtain ⟨h0, g0⟩ := p
    simp only [List.map_cons, List.mem_cons] at hnm
    push_neg at hnm
    rw [startAll_cons, ih (on_request m h0 g0) hnm.2]
    exact get_insert_ne m h0 _ h hnm.1

theorem startAll_get_mem (reqs : List (Nat × Nat)) (m : Registry) (h g : Nat)
    (hnd : (reqs.map Prod.fst).Nodup) (hmem : (h, g) ∈ reqs) :
    (startAll m reqs).get h = some (g % U64_MOD) := by
  induction reqs generalizing m with
  | nil => cases hmem
  | cons p rest ih =>
    obtain ⟨h0, g0⟩ := p
    simp only [List.map_cons, List.nodup_cons] at hnd
    rw [startAll_cons]
    rcases List.mem_cons.mp hmem with heq | hmem2
    · simp only [Prod.mk.injEq] at heq
      obtain ⟨rfl, rfl⟩ := heq
      rw [startAll_get_not_mem rest _ h hnd.1]
      exact get_insert_self m h _
    · exact ih (on_request m h0 g0) hnd.2 hmem2

theorem startAll_size (reqs : List (Nat × Nat)) (m : Registry)
    (hnd : (reqs.map Prod.fst).Nodup)
    (hfresh : ∀ p ∈ reqs, m.get p.1 = none) :
    (startAll m reqs).size = m.size + reqs.length := by
  induction reqs generalizing m with
  | nil => rfl
  | cons p rest ih =>
    obtain ⟨h0, g0⟩ := p
    simp only [List.map_cons, List.nodup_cons] at hnd
    have hm0 : m.get h0 = none := hfresh (h0, g0) (List.mem_cons_self _ _)
    have hfresh2 : ∀ p ∈ rest, (on_request m h0 g0).get p.1 = none := by
      intro p hp
      have hne : p.1 ≠ h0 := by
        intro hc
        have : h0 ∈ rest.map Prod.fst := by
          rw [← hc]
          exact List.mem_map_of_mem Prod.fst hp
        exact hnd.1 this
      simp only [on_request]
      rw [get_insert_ne m h0 _ p.1 hne]
      exact hfresh p (List.mem_cons_of_mem _ hp)
    rw [startAll_cons, ih (on_request m h0 g0) hnd.2 hfresh2]
    have hsz : (on_request m h0 g0).size = m.size + 1 :=
      size_insert_of_get_none m h0 _ hm0
    rw [hsz]
    simp only [List.length_cons]
    omega

/-! ### Claim theorems -/

/-- C1: whenever the registry maps handle `h` to identifier `v`, every call
to `from_request` with `h` returns `Success` with exactly `v`; repeated
resolutions during the request's lifetime (any further sequence of resolve
events, as performed by nested or derived guards) all return the identical
identifier. -/
theorem resolve_stable (m : Registry) (h v : Nat) (hv : m.get h = some v) :
    from_request m h = Outcome.success ⟨v⟩ ∧
    ∀ tr : List Event, (∀ e ∈ tr, e.isResolve = true) →
      from_request (applyTrace m tr) h = Outcome.success ⟨v⟩ := by
  constructor
  · simp [from_request, hv]
  · intro tr htr
    rw [applyTrace_resolves tr m htr]
    simp [from_request, hv]

theorem resolve_stable_witness :
    from_request ⟨[(7, 42)]⟩ 7 = Outcome.success ⟨42⟩ ∧
    from_request (applyTrace ⟨[(7, 42)]⟩ [Event.resolve 7, Event.resolve 7]) 7
      = Outcome.success ⟨42⟩ := by
  have hmain := resolve_stable ⟨[(7, 42)]⟩ 7 42 (by decide)
  exact ⟨hmain.1, hmain.2 [Event.resolve 7, Event.resolve 7] (by decide)⟩

/-- C2: `from_request` fails exactly when the registry has no entry for the
handle, the failure is `Failure((Status::InternalServerError, ()))` rather
than a panic (the non-poisoned locked computation never panics), and on a
hit it succeeds with the stored identifier. -/
theorem resolve_failure_iff (m : Registry) (h : Nat) :
    (from_request m h = Outcome.failure (Status.internalServerError, ())
      ↔ m.get h = none) ∧
    (∀ v, m.get h = some v → from_request m h = Outcome.success ⟨v⟩) ∧
    from_request_locked { poisoned := false, data := m } h ≠ PanicOr.panic := by
  refine ⟨⟨?_, ?_⟩, ?_, ?_⟩
  · intro hfail
    cases hget : m.get h with
    | none => rfl
    | some v => simp [from_request, hget] at hfail
  · intro hnone
    simp [from_request, hnone]
  · intro v hv
    simp [from_request, hv]
  · cases hget : m.get h <;>
      simp [from_request_locked, Mutex.lock, LockResult.unwrap, hget]

theorem resolve_failure_iff_witness :
    from_request ⟨[]⟩ 3 = Outcome.failure (Status.internalServerError, ()) ∧
    from_request ⟨[(3, 9)]⟩ 3 = Outcome.success ⟨9⟩ := by
  refine ⟨?_, ?_⟩
  · exact (resolve_failure_iff ⟨[]⟩ 3).1.mpr (by decide)
  · exact (resolve_failure_iff ⟨[(3, 9)]⟩ 3).2.1 9 (by decide)

/-- C3: the start hook `on_request` binds the handle to the freshly drawn
64-bit identifier, overwriting any prior entry, so that afterwards the
handle maps to the new identifier and exactly one entry for the handle
exists. -/
theorem on_request_overwrites (m : Registry) (h gen : Nat) :
    (on_request m h gen).get h = some (gen % U64_MOD) ∧
    gen % U64_MOD < U64_MOD ∧
    (on_request m h gen).countKey h = 1 :=
  ⟨get_insert_self m h _, Nat.mod_lt gen (by norm_num [U64_MOD]),
    countKey_insert_self m h _⟩

/-- C4: the end hook `on_response` removes the handle unconditionally, is
idempotent, signals no error when the handle is absent (the removal is a
no-op and the locked computation returns normally), and for a full
start-then-end cycle the registry size returns to its pre-request value. -/
theorem on_response_removes (m : Registry) (h g : Nat) :
    (on_response m h).get h = none ∧
    on_response (on_response m h) h = on_response m h ∧
    (m.get h = none → on_response m h = m) ∧
    on_response_locked { poisoned := false, data := m } h
      = PanicOr.ok { poisoned := false, data := on_response m h } ∧
    (m.get h = none → (on_response (on_request m h g) h).size = m.size) := by
  refine ⟨get_remove_self m h, remove_idem m h, remove_of_get_none m h, rfl, ?_⟩
  intro hn
  have h1 : on_response (on_request m h g) h = m.remove h :=
    remove_insert_self m h _
  rw [h1, remove_of_get_none m h hn]

theorem on_response_removes_witness :
    on_response ⟨[]⟩ 5 = (⟨[]⟩ : Registry) ∧
    (on_response (on_request ⟨[]⟩ 5 77) 5).size = (⟨[]⟩ : Registry).size := by
  have hmain := on_response_removes ⟨[]⟩ 5 77
  exact ⟨hmain.2.2.1 (by decide), hmain.2.2.2.2 (by decide)⟩

/-- C5: after the end hook runs for a handle the registry has no entry for
it — an entry never persists past the end hook — and a full
start-hook/end-hook lifecycle restores the registry to its baseline. -/
theorem entry_never_persists (m : Registry) (h g : Nat) :
    (on_response m h).get h = none ∧
    (on_response (on_request m h g) h).get h = none ∧
    (m.get h = none → on_response (on_request m h g) h = m) := by
  refine ⟨get_remove_self m h, get_remove_self (on_request m h g) h, ?_⟩
  intro hn
  simp only [on_response, on_request]
  rw [remove_insert_self m h _, remove_of_get_none m h hn]

theorem entry_never_persists_witness :
    on_response (on_request ⟨[(2, 11)]⟩ 9 123) 9 = (⟨[(2, 11)]⟩ : Registry) :=
  (entry_never_persists ⟨[(2, 11)]⟩ 9 123).2.2 (by decide)

/-- C6: `from_request` leaves the registry completely unchanged whether it
succeeds or fails: the locked computation returns the mutex exactly as it
found it, and deleting all resolve events from any event trace does not
change the final registry. -/
theorem resolve_no_mutation (m : Registry) (h : Nat) (tr : List Event) :
    from_request_locked { poisoned := false, data := m } h
      = PanicOr.ok (from_request m h, { poisoned := false, data := m }) ∧
    applyTrace m (tr.filter (fun e => !e.isResolve)) = applyTrace m tr := by
  constructor
  · cases hget : m.get h <;>
      simp [from_request_locked, from_request, Mutex.lock, LockResult.unwrap, hget]
  · exact applyTrace_drop_resolves tr m

/-- C7: for two sequential full request lifecycles whose generator draws
differ (the random generator modelled as an input stream), the identifiers
returned to the two requests differ. -/
theorem sequential_ids_differ (m : Registry) (h1 h2 g1 g2 : Nat)
    (hg : g1 % U64_MOD ≠ g2 % U64_MOD) :
    (runRequest m h1 g1).1 = Outcome.success ⟨g1 % U64_MOD⟩ ∧
    (runRequest (runRequest m h1 g1).2 h2 g2).1
      = Outcome.success ⟨g2 % U64_MOD⟩ ∧
    ∀ r1 r2 : RequestID,
      (runRequest m h1 g1).1 = Outcome.success r1 →
      (runRequest (runRequest m h1 g1).2 h2 g2).1 = Outcome.success r2 →
      r1 ≠ r2 := by
  have hout1 : (runRequest m h1 g1).1 = Outcome.success ⟨g1 % U64_MOD⟩ := by
    simp [runRequest, from_request, on_request, get_insert_self]
  have hout2 : (runRequest (runRequest m h1 g1).2 h2 g2).1
      = Outcome.success ⟨g2 % U64_MOD⟩ := by
    simp [runRequest, from_request, on_request, get_insert_self]
  refine ⟨hout1, hout2, ?_⟩
  intro r1 r2 e1 e2
  rw [hout1] at e1
  rw [hout2] at e2
  injection e1 with e1'
  injection e2 with e2'
  rw [← e1', ← e2']
  intro hc
  exact hg (congrArg RequestID.id hc)

theorem sequential_ids_differ_witness :
    (runRequest Registry.empty 1 10).1 = Outcome.success ⟨10 % U64_MOD⟩ ∧
    (runRequest (runRequest Registry.empty 1 10).2 1 11).1
      = Outcome.success ⟨11 % U64_MOD⟩ := by
  have hmain := sequential_ids_differ Registry.empty 1 1 10 11 (by decide)
  exact ⟨hmain.1, hmain.2.1⟩

/-- C8: for any batch of in-flight requests with pairwise-distinct handles
started on the empty registry, the registry holds exactly one entry per
request, every resolve for a handle returns the identifier generated at
that same request's start, and an end hook for a different handle leaves a
request's entry untouched. -/
theorem concurrent_no_crosstalk (reqs : List (Nat × Nat))
    (hnd : (reqs.map Prod.fst).Nodup) :
    (startAll Registry.empty reqs).size = reqs.length ∧
    (∀ h g, (h, g) ∈ reqs →
      from_request (startAll Registry.empty reqs) h
        = Outcome.success ⟨g % U64_MOD⟩) ∧
    (∀ h h2, h ≠ h2 →
      (on_response (startAll Registry.empty reqs) h2).get h
        = (startAll Registry.empty reqs).get h) := by
  refine ⟨?_, ?_, ?_⟩
  · have hsz := startAll_size reqs Registry.empty hnd (fun p _ => rfl)
    simpa [Registry.empty, Registry.size] using hsz
  · intro h g hmem
    have hget := startAll_get_mem reqs Registry.empty h g hnd hmem
    simp [from_request, hget]
  · intro h h2 hne
    exact get_remove_ne (startAll Registry.empty reqs) h2 h hne

theorem concurrent_no_crosstalk_witness :
    (startAll Registry.empty [(1, 10), (2, 20)]).size = 2 ∧
    from_request (startAll Registry.empty [(1, 10), (2, 20)]) 2
      = Outcome.success ⟨20 % U64_MOD⟩ ∧
    (on_response (startAll Registry.empty [(1, 10), (2, 20)]) 2).get 1
      = (startAll Registry.empty [(1, 10), (2, 20)]).get 1 := by
  have hmain := concurrent_no_crosstalk [(1, 10), (2, 20)] (by decide)
  exact ⟨hmain.1, hmain.2.1 2 20 (by decide), hmain.2.2 1 2 (by decide)⟩

/-- C9: when the shared lock is poisoned, each of the three registry
operations — start-hook insert, end-hook remove, and accessor resolve —
panics via `unwrap` rather than returning a value. -/
theorem poisoned_lock_panics (m : Registry) (h g : Nat) :
    on_request_locked { poisoned := true, data := m } h g = PanicOr.panic ∧
    on_response_locked { poisoned := true, data := m } h = PanicOr.panic ∧
    from_request_locked { poisoned := true, data := m } h = PanicOr.panic :=
  ⟨rfl, rfl, rfl⟩

/-- C10: for every 64-bit value `x`, the `From<RequestID> for u64`
conversion of the `RequestID` wrapping `x` yields exactly `x` (a lossless
round-trip with construction), and two `RequestID` values are equal exactly
when their underlying identifiers are equal (also under the derived
field-wise equality test). -/
theorem requestid_roundtrip (x : Nat) (r s : RequestID) (_hx : x < U64_MOD) :
    u64From ⟨x⟩ = x ∧
    (⟨u64From r⟩ : RequestID) = r ∧
    (r = s ↔ r.id = s.id) ∧
    (RequestID.beq r s = true ↔ r.id = s.id) := by
  refine ⟨rfl, rfl, ?_, ?_⟩
  · constructor
    · intro he
      rw [he]
    · intro hid
      cases r
      cases s
      simpa using hid
  · simp [RequestID.beq]

theorem requestid_roundtrip_witness :
    u64From ⟨123⟩ = 123 :=
  (requestid_roundtrip 123 ⟨0⟩ ⟨0⟩ (by decide)).1

end RocketRequestId
